import Mathlib

/-!
Shallow embedding of the numeric/statistics utilities (math module) and the
validation predicates of the dev-utils-plus library.

Modeling conventions:
* JavaScript numbers are modeled as rationals (`ℚ`); `NaN` is modeled by a
  dedicated constructor where a function can actually produce it.
* Thrown exceptions (`TypeError`, `Error`) are modeled with `Except`.
* Strings are modeled as `List Char`.
* `Array.prototype.sort` with the numeric comparator sorts ascending; it is
  modeled with `List.insertionSort (· ≤ ·)`, which produces the same (unique)
  sorted permutation.
* `Math.round x` is `⌊x + 1/2⌋` (this matches JavaScript, also at negative
  half-way points); `Math.floor` is `Rat.floor`.
-/

namespace DevUtils

/-- JavaScript error values: a `TypeError` or a plain `Error`, with message. -/
inductive JSError where
  | typeError (msg : String)
  | error (msg : String)
deriving DecidableEq

/-- A JavaScript argument as seen by a `typeof`-check: a number, or any
non-numeric value (string, object, undefined, ...), whose identity is
irrelevant to the functions modeled here. -/
inductive JSValue where
  | num (q : ℚ)
  | other
deriving DecidableEq

/-- The `typeof v === 'number'` test. -/
def JSValue.isNum : JSValue → Bool
  | .num _ => true
  | .other => false

/-- A JavaScript number result that may be `NaN`. -/
inductive JSNum where
  | nan
  | val (q : ℚ)
deriving DecidableEq

/-- `return Math.min(Math.max(value, min), max)` — the value computed by
`clamp` on numeric arguments that pass its checks. -/
def clamp (value lo hi : ℚ) : ℚ :=
  min (max value lo) hi

/-- `clamp(value, min, max)` with its runtime checks: a `TypeError` if any
argument is not a number, an `Error` if `min > max`, else the clamped value. -/
def clampChecked (value lo hi : JSValue) : Except JSError ℚ :=
  match value, lo, hi with
  | .num v, .num a, .num b =>
      if a > b then .error (.error "min cannot be greater than max")
      else .ok (clamp v a b)
  | _, _, _ => .error (.typeError "All arguments must be numbers")

/-- `percentage(value, total)`: `if (total === 0) return 0; return (value / total) * 100`. -/
def percentage (value total : ℚ) : ℚ :=
  if total = 0 then 0 else value / total * 100

/-- `factorial(n)`: `NaN` for negative `n`, `1` for `n = 0` or `n = 1`, else
the loop `for (i = 2; i <= n; i++) result *= i`.  The loop runs for
`i = 2, …, ⌊n⌋`, i.e. `max 0 (⌊n⌋ - 1)` iterations. -/
def factorial (n : ℚ) : JSNum :=
  if n < 0 then .nan
  else if n = 0 ∨ n = 1 then .val 1
  else .val (List.foldl (fun (r : ℚ) (i : ℕ) => r * (i : ℚ)) 1
    (List.range' 2 ((Rat.floor n).toNat - 1)))

/-- JavaScript `Math.round`: round half toward positive infinity. -/
def jsRound (q : ℚ) : ℚ :=
  ((Rat.floor (q + 1 / 2) : ℤ) : ℚ)

/-- The multiplicative loop of `binomial`:
`for (i = 0; i < k; i++) result *= (n - i) / (i + 1)`. -/
def binomLoop (n : ℚ) (k : ℕ) : ℚ :=
  List.foldl (fun (r : ℚ) (i : ℕ) => r * ((n - (i : ℚ)) / ((i : ℚ) + 1))) 1
    (List.range k)

/-- `binomial(n, k)`: validation error for non-integer or negative arguments
(`Number.isInteger q` is `q.den = 1` on the rational model), `0` for `k > n`,
`1` for `k = 0` or `k = n`, else the rounded multiplicative product taken over
the smaller of `k` and `n - k`. -/
def binomial (n k : ℚ) : Except JSError ℚ :=
  if ¬ n.den = 1 ∨ ¬ k.den = 1 ∨ n < 0 ∨ k < 0 then
    .error (.error "Arguments must be non-negative integers")
  else if k > n then .ok 0
  else if k = 0 ∨ k = n then .ok 1
  else .ok (jsRound (binomLoop n (Rat.floor (min k (n - k))).toNat))

/-- `sum(numbers)`: `numbers.reduce((acc, num) => acc + num, 0)`. -/
def sum (numbers : List ℚ) : ℚ :=
  numbers.foldl (fun acc num => acc + num) 0

/-- `average(numbers)`: `0` on the empty array, else `sum / length`. -/
def average (numbers : List ℚ) : ℚ :=
  if numbers.length = 0 then 0 else sum numbers / (numbers.length : ℚ)

/-- `median(numbers)`: `0` on the empty array; otherwise sort ascending and
return the middle element (odd length) or the average of the two middle
elements (even length).  The `undefined` guards of the source are dead code
for a non-empty array, since both indices are then in range. -/
def median (numbers : List ℚ) : ℚ :=
  if numbers.length = 0 then 0
  else
    let sorted := numbers.insertionSort (· ≤ ·)
    let mid := sorted.length / 2
    if sorted.length % 2 = 0 then (sorted.getD (mid - 1) 0 + sorted.getD mid 0) / 2
    else sorted.getD mid 0

/-- JavaScript `parseInt` applied to the decimal rendering of a number:
truncation toward zero (`parseInt("1.5") = 1`, `parseInt("-1.5") = -1`). -/
def jsTrunc (q : ℚ) : ℤ :=
  if q < 0 then -(Rat.floor (-q)) else Rat.floor q

/-- Distinct elements of a list in order of first occurrence (the insertion
order of the keys of the `frequency` object built by `mode`). -/
def firstOccurDedup (l : List ℚ) : List ℚ :=
  l.foldl (fun acc x => if x ∈ acc then acc else acc ++ [x]) []

/-- `Object.entries` key order for the numeric-keyed `frequency` object:
integer-valued keys enumerate first in ascending order, the remaining keys in
insertion order. -/
def jsKeyOrder (l : List ℚ) : List ℚ :=
  let d := firstOccurDedup l
  (d.filter (fun q => q.den = 1)).insertionSort (· ≤ ·) ++ d.filter (fun q => ¬ q.den = 1)

/-- `mode(numbers)`: `[]` on the empty array, else the keys of the frequency
table whose count equals the maximal count, each passed through `parseInt`. -/
def mode (numbers : List ℚ) : List ℚ :=
  if numbers.length = 0 then []
  else
    let maxFreq := (numbers.map (fun x => numbers.count x)).foldl max 0
    ((jsKeyOrder numbers).filter (fun q => numbers.count q = maxFreq)).map
      (fun q => ((jsTrunc q : ℤ) : ℚ))

/-- `variance(numbers)`: `0` on the empty array, else the average of the
squared differences from the mean. -/
def variance (numbers : List ℚ) : ℚ :=
  if numbers.length = 0 then 0
  else
    let avg := average numbers
    let squaredDiffs := numbers.map (fun num => (num - avg) ^ 2)
    average squaredDiffs

/-- `standardDeviation(numbers)`: `0` on the empty array, else
`Math.sqrt(variance)`.  The square root of a rational is in general
irrational, so this one function is valued in `ℝ` (hence noncomputable);
the empty-array branch returns `0` before any square root is taken. -/
noncomputable def standardDeviation (numbers : List ℚ) : ℝ :=
  if numbers.length = 0 then 0
  else
    let avg := average numbers
    let squaredDiffs := numbers.map (fun num => (num - avg) ^ 2)
    Real.sqrt ((average squaredDiffs : ℚ) : ℝ)

/-- The sieve array just after `sieve[0] = sieve[1] = false`: index `j` holds
`true` iff `2 ≤ j`. -/
def sieveInit : ℕ → Bool := fun j => decide (2 ≤ j)

/-- The inner loop `for (j = i * i; j <= limit; j += i) sieve[j] = false`:
clears exactly the multiples of `i` lying in `[i * i, limit]`. -/
def sieveMark (limit i : ℕ) (s : ℕ → Bool) : ℕ → Bool :=
  fun j => if i * i ≤ j ∧ j ≤ limit ∧ i ∣ j then false else s j

/-- One iteration of the outer loop: run the inner loop only `if (sieve[i])`. -/
def sieveStep (limit : ℕ) (s : ℕ → Bool) (i : ℕ) : ℕ → Bool :=
  if s i then sieveMark limit i s else s

/-- The outer loop over a given list of candidate indices `i`. -/
def sieveRun (limit : ℕ) (l : List ℕ) (s : ℕ → Bool) : ℕ → Bool :=
  l.foldl (sieveStep limit) s

/-- The sieve after the full outer loop `for (i = 2; i <= Math.sqrt(limit); i++)`:
the candidates are `2, …, Nat.sqrt limit` (for an integer `i`,
`i <= Math.sqrt(limit)` is `i * i ≤ limit`). -/
def finalSieve (limit : ℕ) : ℕ → Bool :=
  sieveRun limit (List.range' 2 (Nat.sqrt limit - 1)) sieveInit

/-- `generatePrimes(limit)`: the indices of the sieve array (i.e. `0 … limit`)
that remain `true`, in increasing order. -/
def generatePrimes (limit : ℕ) : List ℕ :=
  (List.range (limit + 1)).filter (finalSieve limit)

/-- Index `j` has been cleared by the sieve once every prime below `b` has
been processed: some prime `p < b` divides `j`, with `p * p ≤ j ≤ limit`. -/
def clearedBy (limit b j : ℕ) : Prop :=
  ∃ p, Nat.Prime p ∧ p < b ∧ p * p ≤ j ∧ j ≤ limit ∧ p ∣ j

/-- Invariant of the outer sieve loop, after all candidates `i < b` have been
processed: index `j` is `true` iff `2 ≤ j` and `j` was not cleared. -/
def SieveInv (limit b : ℕ) (s : ℕ → Bool) : Prop :=
  ∀ j, s j = true ↔ (2 ≤ j ∧ ¬ clearedBy limit b j)

/-- Characters removed by `replace(/\s/g, '')` (ASCII whitespace; the
Unicode-only whitespace code points never occur in the strings the claims
quantify over). -/
def jsWhitespace (c : Char) : Bool :=
  c = ' ' ∨ c = '\t' ∨ c = '\n' ∨ c = '\r' ∨ c = '\x0b' ∨ c = '\x0c'

/-- `parseInt` applied to a single decimal digit character. -/
def digitVal (c : Char) : ℕ := c.toNat - 48

/-- The ten decimal digit characters (the class `\d`). -/
def decimalDigits : List Char :=
  ['0', '1', '2', '3', '4', '5', '6', '7', '8', '9']

/-- The doubled-digit adjustment of the Luhn algorithm:
`digit *= 2; if (digit > 9) digit -= 9`. -/
def luhnDouble (d : ℕ) : ℕ :=
  if 2 * d > 9 then 2 * d - 9 else 2 * d

/-- The contribution of one digit to the Luhn sum, given the `isEven` flag. -/
def luhnW (e : Bool) (d : ℕ) : ℕ :=
  if e then luhnDouble d else d

/-- The Luhn accumulation loop over the digits listed right-to-left, starting
with the given `isEven` flag (the source starts at the last character with
`isEven = false` and negates the flag each step). -/
def luhnAux : List ℕ → Bool → ℕ
  | [], _ => 0
  | d :: ds, e => luhnW e d + luhnAux ds (!e)

/-- The `isEven` flag after `m` steps of the loop, starting from `e`. -/
def flagAt (e : Bool) (m : ℕ) : Bool :=
  if m % 2 = 1 then !e else e

/-- `isValidCreditCard(cardNumber)`: strip whitespace, require 13–19 decimal
digits (the regex `/^\d{13,19}$/`), then accept iff the Luhn sum of the
digits, taken right to left, is divisible by 10. -/
def isValidCreditCard (s : List Char) : Bool :=
  let clean := s.filter (fun c => ! jsWhitespace c)
  if 13 ≤ clean.length ∧ clean.length ≤ 19 ∧ clean.all Char.isDigit then
    luhnAux ((clean.map digitVal).reverse) false % 10 == 0
  else false

/-- A character matched by the class `[^\s@]` of the e-mail regex. -/
def emailChar (c : Char) : Bool :=
  ! jsWhitespace c && ! (c = '@')

/-- `isValidEmail(email)`: the test of `/^[^\s@]+@[^\s@]+\.[^\s@]+$/`.
A matching string consists of a non-empty `@`-free, whitespace-free part,
one `@`, and a tail that is `@`-free and whitespace-free and contains a `.`
which is neither its first nor its last character (the class `[^\s@]`
matches `.`, so the three regex pieces constrain exactly this).  The part
before the match's `@` is the part before the first `@` of the string. -/
def isValidEmail (s : List Char) : Bool :=
  let u := s.takeWhile (fun c => ! (c = '@'))
  match s.dropWhile (fun c => ! (c = '@')) with
  | [] => false
  | _ :: v =>
      ! u.isEmpty && u.all emailChar && v.all emailChar &&
        (v.drop 1).dropLast.contains '.'

/-! ## Clamp -/

theorem le_clamp (v lo hi : ℚ) (h : lo ≤ hi) : lo ≤ clamp v lo hi :=
  le_min (le_max_right v lo) h

theorem clamp_le (v lo hi : ℚ) : clamp v lo hi ≤ hi :=
  min_le_right _ _

theorem clamp_idem (v lo hi : ℚ) (h : lo ≤ hi) :
    clamp (clamp v lo hi) lo hi = clamp v lo hi := by
  have h1 : lo ≤ clamp v lo hi := le_clamp v lo hi h
  have h2 : clamp v lo hi ≤ hi := clamp_le v lo hi
  show min (max (clamp v lo hi) lo) hi = clamp v lo hi
  rw [max_eq_left h1, min_eq_left h2]

/-- Claim C1: for every value `v` and numeric bounds `lo ≤ hi`,
`clamp v lo hi` lies in the closed interval `[lo, hi]`, and `clamp` is
idempotent: clamping the clamped value again returns it unchanged. -/
theorem clamp_spec (v lo hi : ℚ) (h : lo ≤ hi) :
    lo ≤ clamp v lo hi ∧ clamp v lo hi ≤ hi ∧
      clamp (clamp v lo hi) lo hi = clamp v lo hi :=
  ⟨le_clamp v lo hi h, clamp_le v lo hi, clamp_idem v lo hi h⟩

theorem clamp_spec_witness :
    (0 : ℚ) ≤ clamp 10 0 5 ∧ clamp 10 0 5 ≤ 5 ∧
      clamp (clamp 10 0 5) 0 5 = clamp 10 0 5 :=
  clamp_spec 10 0 5 (by norm_num)

/-- Claim C8: `clamp` raises a `TypeError` if any argument is not a number,
raises a range error if the minimum exceeds the maximum, and otherwise
returns the value constrained to the inclusive bounds without any error. -/
theorem clampChecked_spec :
    (∀ a b c : JSValue, a.isNum = false ∨ b.isNum = false ∨ c.isNum = false →
        clampChecked a b c = .error (.typeError "All arguments must be numbers")) ∧
    (∀ v lo hi : ℚ, lo > hi →
        clampChecked (.num v) (.num lo) (.num hi) =
          .error (.error "min cannot be greater than max")) ∧
    (∀ v lo hi : ℚ, lo ≤ hi →
        clampChecked (.num v) (.num lo) (.num hi) = .ok (clamp v lo hi) ∧
          lo ≤ clamp v lo hi ∧ clamp v lo hi ≤ hi) := by
  refine ⟨?_, ?_, ?_⟩
  · intro a b c h
    cases a <;> cases b <;> cases c <;>
      simp_all [clampChecked, JSValue.isNum]
  · intro v lo hi h
    simp [clampChecked, h]
  · intro v lo hi h
    exact ⟨by simp [clampChecked, not_lt.mpr h],
           le_clamp v lo hi h, clamp_le v lo hi⟩

theorem clampChecked_spec_witness :
    clampChecked .other (.num 0) (.num 5) =
        .error (.typeError "All arguments must be numbers") ∧
      clampChecked (.num 1) (.num 5) (.num 0) =
        .error (.error "min cannot be greater than max") ∧
      clampChecked (.num 10) (.num 0) (.num 5) = .ok (clamp 10 0 5) := by
  refine ⟨clampChecked_spec.1 .other (.num 0) (.num 5) (Or.inl rfl), ?_, ?_⟩
  · exact clampChecked_spec.2.1 1 5 0 (by norm_num)
  · exact (clampChecked_spec.2.2 10 0 5 (by norm_num)).1

/-! ## Percentage -/

/-- Claim C9: `percentage v 0 = 0` (the division by a zero total is guarded),
and for every nonzero total, `percentage v t = v / t * 100`. -/
theorem percentage_spec :
    (∀ v : ℚ, percentage v 0 = 0) ∧
      ∀ v t : ℚ, t ≠ 0 → percentage v t = v / t * 100 := by
  constructor
  · intro v; simp [percentage]
  · intro v t h; simp [percentage, h]

theorem percentage_spec_witness :
    percentage 5 0 = 0 ∧ percentage 1 2 = 50 := by
  refine ⟨percentage_spec.1 5, ?_⟩
  rw [percentage_spec.2 1 2 (by norm_num)]
  norm_num

/-! ## Aggregates on the empty list -/

/-- Claim C4: every statistical aggregate returns a defined zero-like value
on the empty sequence: `sum`, `average`, `median`, `variance` and
`standardDeviation` return `0`, and `mode` returns the empty sequence. -/
theorem empty_aggregates_spec :
    sum [] = 0 ∧ average [] = 0 ∧ median [] = 0 ∧ variance [] = 0 ∧
      standardDeviation [] = 0 ∧ mode [] = [] := by
  refine ⟨rfl, rfl, rfl, rfl, ?_, rfl⟩
  simp [standardDeviation]

/-! ## E-mail validation -/

/-- Claim C7: `isValidEmail` accepts `"user@example.com"`, and rejects every
string that contains no `'@'` character. -/
theorem isValidEmail_spec :
    isValidEmail ("user@example.com".data) = true ∧
      ∀ s : List Char, '@' ∉ s → isValidEmail s = false := by
  constructor
  · decide
  · intro s h
    have hd : s.dropWhile (fun c => ! (c = '@')) = [] := by
      refine List.dropWhile_eq_nil_iff.mpr (fun x hx => ?_)
      simp only [Bool.not_eq_true', decide_eq_false_iff_not]
      intro hc
      exact h (hc ▸ hx)
    simp [isValidEmail, hd]

theorem isValidEmail_spec_witness :
    isValidEmail ("userexample.com".data) = false :=
  isValidEmail_spec.2 ("userexample.com".data) (by decide)

/-! ## Factorial -/

theorem ratFloor_eq_intFloor (q : ℚ) : Rat.floor q = ⌊q⌋ :=
  (Rat.floor_def' q).trans Rat.floor_def.symm

theorem factLoop_eq (k : ℕ) :
    List.foldl (fun (r : ℚ) (i : ℕ) => r * (i : ℚ)) 1 (List.range' 2 k) =
      (Nat.factorial (k + 1) : ℚ) := by
  induction k with
  | zero => simp [Nat.factorial]
  | succ j ih =>
    rw [List.range'_concat, List.foldl_append, ih]
    simp only [List.foldl_cons, List.foldl_nil, Nat.factorial_succ]
    push_cast
    ring

/-- Claim C10: `factorial` returns `NaN` on every negative input rather than
raising an error, and on every non-negative integer `m` it returns `m!`. -/
theorem factorial_spec :
    (∀ n : ℚ, n < 0 → factorial n = JSNum.nan) ∧
      ∀ m : ℕ, factorial (m : ℚ) = JSNum.val ((Nat.factorial m : ℕ) : ℚ) := by
  constructor
  · intro n h
    simp [factorial, h]
  · intro m
    match m with
    | 0 => simp [factorial, Nat.factorial]
    | 1 => norm_num [factorial, Nat.factorial]
    | (j + 2) =>
      have h0 : ¬ ((j + 2 : ℕ) : ℚ) < 0 := not_lt.mpr (Nat.cast_nonneg _)
      have h1 : ¬ (((j + 2 : ℕ) : ℚ) = 0 ∨ ((j + 2 : ℕ) : ℚ) = 1) := by
        push_cast
        intro hc
        rcases hc with hc | hc <;> nlinarith [hc]
      have hf : Rat.floor ((j + 2 : ℕ) : ℚ) = ((j + 2 : ℕ) : ℤ) := by
        rw [ratFloor_eq_intFloor, Int.floor_natCast]
      simp only [factorial, h0, h1, if_false, hf]
      rw [show ((j + 2 : ℕ) : ℤ).toNat - 1 = j + 1 by omega, factLoop_eq]

theorem factorial_spec_witness :
    factorial (-1 : ℚ) = JSNum.nan ∧
      factorial ((5 : ℕ) : ℚ) = JSNum.val ((Nat.factorial 5 : ℕ) : ℚ) :=
  ⟨factorial_spec.1 (-1) (by norm_num), factorial_spec.2 5⟩

/-! ## Binomial coefficient -/

theorem jsRound_natCast (m : ℕ) : jsRound ((m : ℕ) : ℚ) = ((m : ℕ) : ℚ) := by
  unfold jsRound
  rw [ratFloor_eq_intFloor]
  have hfl : ⌊((m : ℕ) : ℚ) + 1 / 2⌋ = (m : ℤ) := by
    rw [Int.floor_eq_iff]
    constructor
    · push_cast; linarith
    · push_cast; linarith
  rw [hfl]
  simp

theorem binomLoop_eq_choose (n : ℕ) :
    ∀ k : ℕ, k ≤ n → binomLoop ((n : ℕ) : ℚ) k = ((n.choose k : ℕ) : ℚ) := by
  intro k
  induction k with
  | zero => simp [binomLoop]
  | succ j ih =>
    intro h
    have hj : j ≤ n := Nat.le_of_succ_le h
    unfold binomLoop
    rw [List.range_succ, List.foldl_append]
    simp only [List.foldl_cons, List.foldl_nil]
    have hpr : List.foldl
        (fun (r : ℚ) (i : ℕ) => r * ((((n : ℕ) : ℚ) - (i : ℚ)) / ((i : ℚ) + 1))) 1
        (List.range j) = ((n.choose j : ℕ) : ℚ) := ih hj
    rw [hpr]
    have key := congrArg (fun t : ℕ => (t : ℚ)) (Nat.choose_succ_right_eq n j)
    simp only [Nat.cast_mul] at key
    rw [Nat.cast_sub hj] at key
    have hq : ((j : ℚ) + 1) ≠ 0 := by
      have : (0 : ℚ) < (j : ℚ) + 1 := by positivity
      exact ne_of_gt this
    field_simp
    push_cast at key ⊢
    linarith [key]

theorem binomial_arg_valid (n k : ℕ) :
    ¬ (¬ ((n : ℕ) : ℚ).den = 1 ∨ ¬ ((k : ℕ) : ℚ).den = 1 ∨
        ((n : ℕ) : ℚ) < 0 ∨ ((k : ℕ) : ℚ) < 0) := by
  simp [Rat.den_natCast, not_lt, Nat.cast_nonneg]

theorem binomial_invalid (n k : ℚ)
    (h : ¬ n.den = 1 ∨ ¬ k.den = 1 ∨ n < 0 ∨ k < 0) :
    binomial n k = .error (.error "Arguments must be non-negative integers") := by
  rw [binomial.eq_def, if_pos h]

theorem binomial_nat_lt (n k : ℕ) (h : n < k) :
    binomial ((n : ℕ) : ℚ) ((k : ℕ) : ℚ) = .ok 0 := by
  rw [binomial.eq_def, if_neg (binomial_arg_valid n k), if_pos (by exact_mod_cast h)]

theorem binomial_nat_le (n k : ℕ) (h : k ≤ n) :
    binomial ((n : ℕ) : ℚ) ((k : ℕ) : ℚ) = .ok ((n.choose k : ℕ) : ℚ) := by
  have hnotlt : ¬ ((k : ℕ) : ℚ) > ((n : ℕ) : ℚ) := by
    simp only [gt_iff_lt, not_lt]
    exact_mod_cast h
  by_cases hk0 : k = 0
  · subst hk0
    rw [binomial.eq_def, if_neg (binomial_arg_valid n 0), if_neg hnotlt,
      if_pos (Or.inl (by norm_num))]
    simp
  · by_cases hkn : k = n
    · subst hkn
      rw [binomial.eq_def, if_neg (binomial_arg_valid k k), if_neg hnotlt,
        if_pos (Or.inr rfl)]
      simp
    · have hkn2 : ¬ (((k : ℕ) : ℚ) = 0 ∨ ((k : ℕ) : ℚ) = ((n : ℕ) : ℚ)) := by
        push_neg
        constructor
        · exact_mod_cast hk0
        · exact_mod_cast hkn
      rw [binomial.eq_def, if_neg (binomial_arg_valid n k), if_neg hnotlt, if_neg hkn2]
      have hmin : min ((k : ℕ) : ℚ) (((n : ℕ) : ℚ) - ((k : ℕ) : ℚ)) =
          ((min k (n - k) : ℕ) : ℚ) := by
        rw [← Nat.cast_sub h, Nat.cast_min]
      have hfl : (Rat.floor ((min k (n - k) : ℕ) : ℚ)).toNat = min k (n - k) := by
        rw [ratFloor_eq_intFloor, Int.floor_natCast, Int.toNat_natCast]
      rw [hmin, hfl, binomLoop_eq_choose n (min k (n - k)) (le_trans (min_le_left _ _) h)]
      rw [jsRound_natCast]
      have hch : n.choose (min k (n - k)) = n.choose k := by
        rcases Nat.le_total k (n - k) with hle | hle
        · rw [min_eq_left hle]
        · rw [min_eq_right hle, Nat.choose_symm h]
      rw [hch]

/-- Claim C2: on non-negative integers, `binomial n k` returns `0` (a result,
not an error) when `k > n` and the binomial coefficient `n.choose k` when
`k ≤ n` (in particular `binomial 5 2 = 10`, `binomial 5 6 = 0`,
`binomial 5 0 = 1`); it raises a validation error whenever an argument is
negative or not an integer. -/
theorem binomial_spec :
    (∀ n k : ℕ, n < k → binomial ((n : ℕ) : ℚ) ((k : ℕ) : ℚ) = .ok 0) ∧
    (∀ n k : ℕ, k ≤ n →
        binomial ((n : ℕ) : ℚ) ((k : ℕ) : ℚ) = .ok ((n.choose k : ℕ) : ℚ)) ∧
    (∀ n k : ℚ, ¬ n.den = 1 ∨ ¬ k.den = 1 ∨ n < 0 ∨ k < 0 →
        binomial n k = .error (.error "Arguments must be non-negative integers")) ∧
    binomial 5 2 = .ok 10 ∧ binomial 5 6 = .ok 0 ∧ binomial 5 0 = .ok 1 := by
  refine ⟨binomial_nat_lt, binomial_nat_le, binomial_invalid, ?_, ?_, ?_⟩
  · have h := binomial_nat_le 5 2 (by norm_num)
    have hv : ((5 : ℕ).choose 2 : ℕ) = 10 := by decide
    rw [hv] at h
    simpa using h
  · have h := binomial_nat_lt 5 6 (by norm_num)
    simpa using h
  · have h := binomial_nat_le 5 0 (by norm_num)
    have hv : ((5 : ℕ).choose 0 : ℕ) = 1 := by decide
    rw [hv] at h
    simpa using h

theorem binomial_spec_witness :
    binomial ((5 : ℕ) : ℚ) ((6 : ℕ) : ℚ) = .ok 0 ∧
      binomial ((5 : ℕ) : ℚ) ((2 : ℕ) : ℚ) = .ok (((5 : ℕ).choose 2 : ℕ) : ℚ) ∧
      binomial (-1 : ℚ) 1 = .error (.error "Arguments must be non-negative integers") := by
  refine ⟨binomial_spec.1 5 6 (by norm_num), binomial_spec.2.1 5 2 (by norm_num), ?_⟩
  exact binomial_spec.2.2.1 (-1) 1 (Or.inr (Or.inr (Or.inl (by norm_num))))

/-! ## Median -/

/-- Claim C5: on every non-empty even-length sequence, `median` returns the
average of the two middle elements of the ascending sorted arrangement of the
sequence (stated for an arbitrary sorted permutation `s` of the input, which
is unique). -/
theorem median_even_spec (l s : List ℚ) (hp : l.Perm s) (hs : s.Sorted (· ≤ ·))
    (h2 : l.length % 2 = 0) (h0 : l ≠ []) :
    median l = (s.getD (l.length / 2 - 1) 0 + s.getD (l.length / 2) 0) / 2 := by
  have hsort : l.insertionSort (· ≤ ·) = s :=
    List.eq_of_perm_of_sorted ((List.perm_insertionSort _ l).trans hp)
      (List.sorted_insertionSort _ l) hs
  have hlen : ¬ l.length = 0 := fun hc => h0 (List.length_eq_zero.mp hc)
  have hlens : s.length = l.length := (hp.length_eq).symm
  simp only [median, if_neg hlen, hsort, hlens, if_pos h2]

theorem median_even_spec_witness : median [(1 : ℚ), 2, 3, 4] = 5 / 2 := by
  have h := median_even_spec [(1 : ℚ), 2, 3, 4] [(1 : ℚ), 2, 3, 4]
    (List.Perm.refl _) (by decide) (by decide) (by decide)
  rw [h]
  norm_num [List.getD_cons_succ, List.getD_cons_zero]

/-! ## Prime sieve -/

theorem sieveRun_append (limit : ℕ) (l1 l2 : List ℕ) (s : ℕ → Bool) :
    sieveRun limit (l1 ++ l2) s = sieveRun limit l2 (sieveRun limit l1 s) :=
  List.foldl_append ..

theorem sieveInit_inv (limit b : ℕ) (hb : b ≤ 2) : SieveInv limit b sieveInit := by
  intro j
  simp only [sieveInit, decide_eq_true_eq]
  constructor
  · intro h
    refine ⟨h, ?_⟩
    rintro ⟨p, pp, plt, -, -, -⟩
    exact absurd (lt_of_lt_of_le plt hb) (not_lt.mpr pp.two_le)
  · rintro ⟨h, -⟩
    exact h

theorem composite_cleared (limit b : ℕ) (h2 : 2 ≤ b) (hb : b ≤ limit)
    (hp : ¬ Nat.Prime b) : clearedBy limit b b := by
  have hb1 : b ≠ 1 := by omega
  have hbpos : 0 < b := by omega
  have hmf := Nat.minFac_prime hb1
  have hdvd := Nat.minFac_dvd b
  have hsq : b.minFac * b.minFac ≤ b := by
    have h := Nat.minFac_sq_le_self hbpos hp
    rwa [pow_two] at h
  have hlt : b.minFac < b := by
    rcases Nat.lt_or_ge b.minFac b with h1 | h1
    · exact h1
    · exfalso
      have hle : b.minFac ≤ b := Nat.le_of_dvd hbpos hdvd
      have hbe : b.minFac = b := le_antisymm hle h1
      rw [hbe] at hsq
      nlinarith
  exact ⟨b.minFac, hmf, hlt, hsq, hb, hdvd⟩

theorem sieveStep_inv (limit b : ℕ) (s : ℕ → Bool) (h2 : 2 ≤ b)
    (hb : b ≤ Nat.sqrt limit) (h : SieveInv limit b s) :
    SieveInv limit (b + 1) (sieveStep limit s b) := by
  by_cases hp : Nat.Prime b
  · have hsb : s b = true := by
      rw [h b]
      refine ⟨h2, ?_⟩
      rintro ⟨p, pp, plt, -, -, pdvd⟩
      rcases hp.eq_one_or_self_of_dvd p pdvd with h1 | h1
      · exact pp.ne_one h1
      · exact absurd h1 (Nat.ne_of_lt plt)
    have hstep : sieveStep limit s b = sieveMark limit b s := by
      simp [sieveStep, hsb]
    rw [hstep]
    intro j
    simp only [sieveMark]
    by_cases hc : b * b ≤ j ∧ j ≤ limit ∧ b ∣ j
    · rw [if_pos hc]
      simp only [Bool.false_eq_true, false_iff, not_and, not_not]
      intro _
      exact ⟨b, hp, Nat.lt_succ_self b, hc.1, hc.2.1, hc.2.2⟩
    · rw [if_neg hc, h j]
      have hcc : clearedBy limit b j ↔ clearedBy limit (b + 1) j := by
        constructor
        · rintro ⟨p, pp, plt, rest⟩
          exact ⟨p, pp, Nat.lt_succ_of_lt plt, rest⟩
        · rintro ⟨p, pp, plt, psq, hl, pd⟩
          rcases Nat.lt_succ_iff_lt_or_eq.mp plt with h1 | h1
          · exact ⟨p, pp, h1, psq, hl, pd⟩
          · subst h1
            exact absurd ⟨psq, hl, pd⟩ hc
      rw [hcc]
  · have hsb : s b = false := by
      have hnot : ¬ (2 ≤ b ∧ ¬ clearedBy limit b b) := by
        rintro ⟨-, hnc⟩
        exact hnc (composite_cleared limit b h2
          (le_trans hb (Nat.sqrt_le_self limit)) hp)
      cases hsbv : s b
      · rfl
      · exact absurd ((h b).mp hsbv) hnot
    have hstep : sieveStep limit s b = s := by
      simp [sieveStep, hsb]
    rw [hstep]
    intro j
    rw [h j]
    have hcc : clearedBy limit b j ↔ clearedBy limit (b + 1) j := by
      constructor
      · rintro ⟨p, pp, plt, rest⟩
        exact ⟨p, pp, Nat.lt_succ_of_lt plt, rest⟩
      · rintro ⟨p, pp, plt, psq, hl, pd⟩
        rcases Nat.lt_succ_iff_lt_or_eq.mp plt with h1 | h1
        · exact ⟨p, pp, h1, psq, hl, pd⟩
        · subst h1
          exact absurd pp hp
    rw [hcc]

theorem sieveRun_inv (limit : ℕ) :
    ∀ c : ℕ, 2 + c ≤ Nat.sqrt limit + 1 →
      SieveInv limit (2 + c) (sieveRun limit (List.range' 2 c) sieveInit) := by
  intro c
  induction c with
  | zero =>
    intro _
    exact sieveInit_inv limit 2 le_rfl
  | succ d ih =>
    intro hc
    rw [List.range'_concat, sieveRun_append]
    have h1 : (2 : ℕ) + 1 * d = 2 + d := by ring
    rw [h1]
    have hstep := sieveStep_inv limit (2 + d)
      (sieveRun limit (List.range' 2 d) sieveInit) (by omega) (by omega)
      (ih (by omega))
    rw [show 2 + (d + 1) = (2 + d) + 1 by omega]
    exact hstep

theorem finalSieve_inv (limit : ℕ) :
    SieveInv limit (Nat.sqrt limit + 1) (finalSieve limit) := by
  unfold finalSieve
  rcases Nat.eq_zero_or_pos (Nat.sqrt limit) with h0 | hpos
  · rw [h0]
    exact sieveInit_inv limit 1 (by omega)
  · have hrun := sieveRun_inv limit (Nat.sqrt limit - 1) (by omega)
    rw [show 2 + (Nat.sqrt limit - 1) = Nat.sqrt limit + 1 by omega] at hrun
    exact hrun

theorem finalSieve_true_iff (limit j : ℕ) (hj : j ≤ limit) :
    finalSieve limit j = true ↔ Nat.Prime j := by
  rw [finalSieve_inv limit j]
  constructor
  · rintro ⟨h2j, hnc⟩
    by_contra hnp
    apply hnc
    have hj1 : j ≠ 1 := by omega
    have hjpos : 0 < j := by omega
    have hmf := Nat.minFac_prime hj1
    have hdvd := Nat.minFac_dvd j
    have hsq : j.minFac * j.minFac ≤ j := by
      have h := Nat.minFac_sq_le_self hjpos hnp
      rwa [pow_two] at h
    have hple : j.minFac < Nat.sqrt limit + 1 := by
      have := Nat.le_sqrt.mpr (le_trans hsq hj)
      omega
    exact ⟨j.minFac, hmf, hple, hsq, hj, hdvd⟩
  · intro hp
    refine ⟨hp.two_le, ?_⟩
    rintro ⟨p, pp, -, psq, -, pdvd⟩
    rcases hp.eq_one_or_self_of_dvd p pdvd with h1 | h1
    · exact pp.ne_one h1
    · subst h1
      have h2p := hp.two_le
      nlinarith [psq, h2p]

theorem mem_generatePrimes (limit j : ℕ) :
    j ∈ generatePrimes limit ↔ Nat.Prime j ∧ j ≤ limit := by
  unfold generatePrimes
  rw [List.mem_filter, List.mem_range]
  constructor
  · rintro ⟨hr, hf⟩
    have hj : j ≤ limit := by omega
    exact ⟨(finalSieve_true_iff limit j hj).mp hf, hj⟩
  · rintro ⟨hp, hj⟩
    exact ⟨by omega, (finalSieve_true_iff limit j hj).mpr hp⟩

theorem generatePrimes_sorted (limit : ℕ) :
    List.Sorted (· < ·) (generatePrimes limit) :=
  List.Pairwise.sublist (List.filter_sublist _) (List.sorted_lt_range _)

theorem sqrt_ten : Nat.sqrt 10 = 3 := by
  have h1 : 3 ≤ Nat.sqrt 10 := Nat.le_sqrt.mpr (by norm_num)
  have h2 : Nat.sqrt 10 < 4 := Nat.sqrt_lt.mpr (by norm_num)
  omega

/-- Claim C3: for every non-negative integer bound, `generatePrimes` returns
exactly the primes less than or equal to the bound, in strictly increasing
order, and it is a total function (no failure path); in particular
`generatePrimes 10 = [2, 3, 5, 7]`. -/
theorem generatePrimes_spec :
    (∀ limit j : ℕ, j ∈ generatePrimes limit ↔ Nat.Prime j ∧ j ≤ limit) ∧
      (∀ limit : ℕ, List.Sorted (· < ·) (generatePrimes limit)) ∧
      generatePrimes 10 = [2, 3, 5, 7] := by
  refine ⟨mem_generatePrimes, generatePrimes_sorted, ?_⟩
  simp only [generatePrimes, finalSieve, sqrt_ten]
  decide

/-! ## Luhn credit-card validation -/

theorem digit_isDigit (c : Char) (h : c ∈ decimalDigits) : c.isDigit = true := by
  fin_cases h <;> decide

theorem digit_not_ws (c : Char) (h : c ∈ decimalDigits) : jsWhitespace c = false := by
  fin_cases h <;> decide

theorem digitVal_lt_ten (c : Char) (h : c ∈ decimalDigits) : digitVal c < 10 := by
  fin_cases h <;> decide

theorem digitVal_inj (c1 c2 : Char) (h1 : c1 ∈ decimalDigits)
    (h2 : c2 ∈ decimalDigits) (h : digitVal c1 = digitVal c2) : c1 = c2 := by
  fin_cases h1 <;> fin_cases h2 <;> first
    | rfl
    | exact absurd h (by decide)

theorem luhnW_le_nine : ∀ e : Bool, ∀ d : ℕ, d < 10 → luhnW e d ≤ 9 := by
  decide

theorem luhnW_inj : ∀ e : Bool, ∀ d1 : ℕ, d1 < 10 → ∀ d2 : ℕ, d2 < 10 →
    luhnW e d1 = luhnW e d2 → d1 = d2 := by
  decide

theorem flagAt_not (e : Bool) (m : ℕ) : flagAt (!e) m = flagAt e (m + 1) := by
  rcases Nat.mod_two_eq_zero_or_one m with h | h
  · have h1 : (m + 1) % 2 = 1 := by omega
    simp [flagAt, h, h1]
  · have h1 : (m + 1) % 2 = 0 := by omega
    simp [flagAt, h, h1]

theorem luhnAux_append_single (a : List ℕ) (x : ℕ) (e : Bool) :
    luhnAux (a ++ [x]) e = luhnAux a e + luhnW (flagAt e a.length) x := by
  induction a generalizing e with
  | nil => simp [luhnAux, flagAt]
  | cons y t ih =>
    have h1 : luhnAux ((y :: t) ++ [x]) e = luhnW e y + luhnAux (t ++ [x]) (!e) := rfl
    have h2 : luhnAux (y :: t) e = luhnW e y + luhnAux t (!e) := rfl
    rw [h1, ih (!e), h2, flagAt_not]
    simp only [List.length_cons]
    omega

theorem luhnAux_rev_set (l : List ℕ) :
    ∀ i : ℕ, ∀ d : ℕ, ∀ e : Bool, i < l.length →
      luhnAux ((l.set i d).reverse) e + luhnW (flagAt e (l.length - 1 - i)) (l.getD i 0)
        = luhnAux l.reverse e + luhnW (flagAt e (l.length - 1 - i)) d := by
  induction l with
  | nil =>
    intro i d e hi
    exact absurd hi (by simp)
  | cons x t ih =>
    intro i d e hi
    match i with
    | 0 =>
      simp only [List.set_cons_zero, List.reverse_cons, List.getD_cons_zero,
        luhnAux_append_single, List.length_reverse, List.length_cons,
        Nat.add_sub_cancel, Nat.sub_zero]
      omega
    | (j + 1) =>
      have hj : j < t.length := by
        simpa using Nat.lt_of_succ_lt_succ hi
      simp only [List.set_cons_succ, List.reverse_cons, List.getD_cons_succ,
        luhnAux_append_single, List.length_reverse, List.length_set,
        List.length_cons]
      have hlen : t.length + 1 - 1 - (j + 1) = t.length - 1 - j := by omega
      rw [hlen]
      have hstep := ih j d e hj
      omega

theorem luhn_sum_set_ne (ds : List ℕ) (i : ℕ) (d : ℕ) (hi : i < ds.length)
    (hds : ∀ x ∈ ds, x < 10) (hd10 : d < 10) (hne : ¬ d = ds.getD i 0)
    (hv : luhnAux ds.reverse false % 10 = 0) :
    ¬ luhnAux ((ds.set i d).reverse) false % 10 = 0 := by
  intro hzero
  have hkey := luhnAux_rev_set ds i d false hi
  have hmem : ds.getD i 0 ∈ ds := by
    rw [List.getD_eq_getElem ds 0 hi]
    exact List.getElem_mem hi
  have hlt : ds.getD i 0 < 10 := hds _ hmem
  have hw1 := luhnW_le_nine (flagAt false (ds.length - 1 - i)) (ds.getD i 0) hlt
  have hw2 := luhnW_le_nine (flagAt false (ds.length - 1 - i)) d hd10
  have heqw : luhnW (flagAt false (ds.length - 1 - i)) (ds.getD i 0)
      = luhnW (flagAt false (ds.length - 1 - i)) d := by
    omega
  exact hne (luhnW_inj _ d hd10 (ds.getD i 0) hlt heqw.symm)

theorem creditCard_digits_pass (s : List Char) (hd : ∀ c ∈ s, c ∈ decimalDigits)
    (h13 : 13 ≤ s.length) (h19 : s.length ≤ 19) :
    isValidCreditCard s =
      (luhnAux ((s.map digitVal).reverse) false % 10 == 0) := by
  have hfil : s.filter (fun c => ! jsWhitespace c) = s := by
    refine List.filter_eq_self.mpr (fun a ha => ?_)
    rw [digit_not_ws a (hd a ha)]
    rfl
  have hall : s.all Char.isDigit = true :=
    List.all_eq_true.mpr (fun c hc => digit_isDigit c (hd c hc))
  simp only [isValidCreditCard, hfil]
  rw [if_pos ⟨h13, h19, hall⟩]

/-- Claim C6: for every string of 13 to 19 decimal digits whose Luhn checksum
is valid, `isValidCreditCard` returns `true`; and changing any single digit
of such a string to a different digit makes `isValidCreditCard` return
`false`. -/
theorem isValidCreditCard_spec (s : List Char)
    (hd : ∀ c ∈ s, c ∈ decimalDigits)
    (h13 : 13 ≤ s.length) (h19 : s.length ≤ 19)
    (hv : luhnAux ((s.map digitVal).reverse) false % 10 = 0) :
    isValidCreditCard s = true ∧
      ∀ i : ℕ, ∀ hi : i < s.length, ∀ c : Char, c ∈ decimalDigits →
        ¬ c = s.get ⟨i, hi⟩ → isValidCreditCard (s.set i c) = false := by
  constructor
  · rw [creditCard_digits_pass s hd h13 h19, hv]
    rfl
  · intro i hi c hcd hne
    have hd2 : ∀ x ∈ s.set i c, x ∈ decimalDigits := by
      intro x hx
      rcases List.mem_or_eq_of_mem_set hx with hx2 | hx2
      · exact hd x hx2
      · rw [hx2]; exact hcd
    have hlen : (s.set i c).length = s.length := List.length_set s i c
    rw [creditCard_digits_pass (s.set i c) hd2 (by omega) (by omega)]
    have hmap : (s.set i c).map digitVal = (s.map digitVal).set i (digitVal c) :=
      List.map_set ..
    have hi2 : i < (s.map digitVal).length := by simpa using hi
    have hds : ∀ x ∈ s.map digitVal, x < 10 := by
      intro x hx
      rcases List.mem_map.mp hx with ⟨a, ha, rfl⟩
      exact digitVal_lt_ten a (hd a ha)
    have hgetD : (s.map digitVal).getD i 0 = digitVal (s.get ⟨i, hi⟩) := by
      rw [List.getD_eq_getElem _ 0 hi2, List.getElem_map]
      rfl
    have hvne : ¬ digitVal c = (s.map digitVal).getD i 0 := by
      rw [hgetD]
      intro hc
      exact hne (digitVal_inj c (s.get ⟨i, hi⟩) hcd
        (hd _ (List.get_mem s i hi)) hc)
    have hzero := luhn_sum_set_ne (s.map digitVal) i (digitVal c) hi2 hds
      (digitVal_lt_ten c hcd) hvne hv
    rw [hmap]
    simpa using hzero

theorem isValidCreditCard_spec_witness :
    isValidCreditCard ("4532015112830366".data) = true ∧
      isValidCreditCard (("4532015112830366".data).set 0 '5') = false := by
  have h := isValidCreditCard_spec ("4532015112830366".data)
    (by decide) (by decide) (by decide) (by decide)
  exact ⟨h.1, h.2 0 (by decide) '5' (by decide) (by decide)⟩

end DevUtils
